import Mathlib

/-!
# SealSlicer: verified shallow embedding of the slicing core

This file embeds the slicing core of the SealSlicer repository
(`src/cpu_slicer.rs`, `src/gpu_slicer.rs`, `src/mesh.rs`,
`src/mesh_island_analyzer.rs`) in Lean 4 and settles the specification
claims about it.

Modelling conventions, used throughout and noted again at each definition
where they matter:

* Machine floats (`f32`/`f64`) are modelled as exact rationals `ℚ`.
* Comparisons that the Rust code performs on a Euclidean norm
  `sqrt(x² + y² + z²) ⋄ c` (with `c > 0`) are embedded as the equivalent
  comparison of squares `x² + y² + z² ⋄ c²`, which avoids square roots;
  `norm == 0.0` is embedded as `normSq = 0`.  Where a square root value
  itself is needed (vector normalisation in `mesh.rs`) the definitions are
  parameterised by a function `s : ℚ → ℚ` standing for the float `sqrt`.
* Rust `HashMap`s are embedded as association lists in key insertion
  order.  `HashMap` iteration order is randomized per map instance in
  Rust; wherever the code iterates over `HashMap` keys the embedding
  takes the iteration order as an explicit parameter (`order`), with the
  insertion-order enumeration as the canonical instance.
* The rasterizer (`imageproc::drawing::draw_polygon_mut`) is an external
  crate, out of the repository.  Per spec §4.4 it is a pure function of
  the mapped polygon points and the image dimensions, so a `SliceImage`
  is represented by exactly those inputs.
-/

set_option maxRecDepth 100000

namespace SealSlicer

/-- A 3-component vector of exact rationals (models `nalgebra::Vector3<f64>`
and `[f32; 3]`). -/
structure Vec3 where
  x : ℚ
  y : ℚ
  z : ℚ
deriving DecidableEq, Repr

instance : Inhabited Vec3 := ⟨⟨0, 0, 0⟩⟩

/-- Componentwise subtraction (`Mesh::subtract`, `nalgebra` `-`). -/
def subV (a b : Vec3) : Vec3 := ⟨a.x - b.x, a.y - b.y, a.z - b.z⟩

/-- Componentwise addition. -/
def addV (a b : Vec3) : Vec3 := ⟨a.x + b.x, a.y + b.y, a.z + b.z⟩

/-- Cross product (`Mesh::cross`, `nalgebra::cross`). -/
def crossV (a b : Vec3) : Vec3 :=
  ⟨a.y * b.z - a.z * b.y, a.z * b.x - a.x * b.z, a.x * b.y - a.y * b.x⟩

/-- Squared Euclidean norm.  The Rust code computes `sqrt` of this and
compares the result against positive constants; those comparisons are
embedded on the squares. -/
def normSq (v : Vec3) : ℚ := v.x * v.x + v.y * v.y + v.z * v.z

/-- Squared distance between two points (square of
`nalgebra::metric_distance`). -/
def distSq (a b : Vec3) : ℚ := normSq (subV a b)

/-- The floating-point tolerance `1e-6` used across the slicing code. -/
def eps : ℚ := 1 / 1000000

/-- `eps * eps`: comparisons of a Euclidean norm against `eps` are
embedded as comparisons of the squared norm against `eps2`. -/
def eps2 : ℚ := eps * eps

/-- A triangle handed to the slicer (`stl_io::Triangle`), reduced to its
three vertex positions; the `normal` field of `stl_io::Triangle` is never
read by the slicing path and is omitted. -/
structure Tri where
  v0 : Vec3
  v1 : Vec3
  v2 : Vec3
deriving DecidableEq, Repr

/-! ## Plane Intersector (`CPUSlicer::intersect_triangle_with_plane`) -/

/-- Lexicographic comparison by x, then y, then z — the comparator passed
to `intersections.sort_by` in `intersect_triangle_with_plane`. -/
def lexLe (a b : Vec3) : Prop :=
  a.x < b.x ∨ (a.x = b.x ∧ (a.y < b.y ∨ (a.y = b.y ∧ a.z ≤ b.z)))

instance (a b : Vec3) : Decidable (lexLe a b) := by
  unfold lexLe; infer_instance

/-- Insert into a lexicographically sorted list (stable). -/
def insertLex (p : Vec3) : List Vec3 → List Vec3
  | [] => [p]
  | q :: rest => if lexLe p q then p :: q :: rest else q :: insertLex p rest

/-- Stable sort by the lexicographic comparator — models
`intersections.sort_by(...)`. -/
def sortLex : List Vec3 → List Vec3
  | [] => []
  | p :: rest => insertLex p (sortLex rest)

/-- Tail of `dedupEps`: drop each element whose distance to the last
retained element is `< eps` (embedded as squared distance `< eps2`). -/
def dedupEpsGo (prev : Vec3) : List Vec3 → List Vec3
  | [] => []
  | q :: rest =>
    if distSq q prev < eps2 then dedupEpsGo prev rest else q :: dedupEpsGo q rest

/-- Models `intersections.dedup_by(|a, b| a.metric_distance(b) < epsilon)`:
remove consecutive elements within `eps` of the last retained element. -/
def dedupEps : List Vec3 → List Vec3
  | [] => []
  | p :: rest => p :: dedupEpsGo p rest

/-- The per-edge contribution of the edge walk in
`intersect_triangle_with_plane` (the `for i in 0..3` body). -/
def edgeContrib (p1 p2 : Vec3) (d1 d2 : ℚ) : List Vec3 :=
  if (eps < d1 ∧ d2 < -eps) ∨ (d1 < -eps ∧ eps < d2) then
    [⟨p1.x + (p2.x - p1.x) * (d1 / (d1 - d2)),
      p1.y + (p2.y - p1.y) * (d1 / (d1 - d2)),
      p1.z + (p2.z - p1.z) * (d1 / (d1 - d2))⟩]
  else if |d1| ≤ eps ∧ |d2| ≤ eps then [p1, p2]
  else if |d1| ≤ eps then [p1]
  else if |d2| ≤ eps then [p2]
  else []

/-- `CPUSlicer::intersect_triangle_with_plane`: signed distances per
vertex, one-side early return, per-edge intersection points, then sort
and epsilon-dedup. -/
def intersectTriangleWithPlane (t : Tri) (planeZ : ℚ) : List Vec3 :=
  let d0 := t.v0.z - planeZ
  let d1 := t.v1.z - planeZ
  let d2 := t.v2.z - planeZ
  if ¬ ((eps < d0 ∨ eps < d1 ∨ eps < d2) ∧ (d0 < -eps ∨ d1 < -eps ∨ d2 < -eps)) then
    []
  else
    dedupEps (sortLex
      (edgeContrib t.v0 t.v1 d0 d1 ++ edgeContrib t.v1 t.v2 d1 d2 ++
        edgeContrib t.v2 t.v0 d2 d0))

/-- `CPUSlicer::collect_intersection_segments`: keep exactly the
triangles whose intersection has exactly 2 points; any other point count
(0, 1, or more than 2) contributes nothing and processing continues. -/
def collectIntersectionSegments : List Tri → ℚ → List (Vec3 × Vec3)
  | [], _ => []
  | t :: ts, planeZ =>
    match intersectTriangleWithPlane t planeZ with
    | [a, b] => (a, b) :: collectIntersectionSegments ts planeZ
    | _ => collectIntersectionSegments ts planeZ

/-- A triangle crossing the plane z = 0, used as surrounding context in
witnesses: its intersection is a proper 2-point segment. -/
def triCross : Tri := ⟨⟨0, 0, -1⟩, ⟨2, 0, 1⟩, ⟨0, 2, 1⟩⟩

/-- A triangle entirely above the plane z = 0 (0 intersection points). -/
def triAbove : Tri := ⟨⟨0, 0, 5⟩, ⟨1, 0, 5⟩, ⟨0, 1, 6⟩⟩

/-! ## Slice Orchestrator: plane sweep (`CPUSlicer::generate_slice_images`,
`GPUSlicer::generate_slice_z_values`) -/

/-- The z-coordinates of all vertices, in triangle order (`z_range`). -/
def zCoords : List Tri → List ℚ
  | [] => []
  | t :: ts => t.v0.z :: t.v1.z :: t.v2.z :: zCoords ts

/-- `z_coords.iter().fold(f64::INFINITY, f64::min)`: `none` models the
fold never leaving `+INFINITY` (empty input). -/
def minFold : List ℚ → Option ℚ
  | [] => none
  | q :: rest =>
    match minFold rest with
    | none => some q
    | some m => some (min q m)

/-- `z_coords.iter().fold(f64::NEG_INFINITY, f64::max)`: `none` models
the fold never leaving `-INFINITY` (empty input). -/
def maxFold : List ℚ → Option ℚ
  | [] => none
  | q :: rest =>
    match maxFold rest with
    | none => some q
    | some m => some (max q m)

/-- The plane-sweep loop `while z <= max_z { push z; z += thickness }`,
with an explicit fuel bound; `none` means the loop has not terminated
within `fuel` iterations.  For a strictly positive thickness a
sufficiently large fuel always yields `some`; for `thickness ≤ 0` and
`z ≤ maxZ` the loop runs forever (`none` for every fuel, proved below). -/
def sliceZLoop : Nat → ℚ → ℚ → ℚ → Option (List ℚ)
  | fuel, zc, maxZ, th =>
    if zc ≤ maxZ then
      match fuel with
      | 0 => none
      | n + 1 => (sliceZLoop n (zc + th) maxZ th).map (fun l => zc :: l)
    else some []

/-- The candidate plane heights of `generate_slice_images`.  When the
triangle list is empty, `z_range` returns
`(f64::INFINITY, f64::NEG_INFINITY)` and the sweep condition
`z <= max_z` is false at once, so the plane list is empty; this is the
`none, none` branch below. -/
def candidatePlanes (fuel : Nat) (ts : List Tri) (th : ℚ) : Option (List ℚ) :=
  match minFold (zCoords ts), maxFold (zCoords ts) with
  | some a, some b => sliceZLoop fuel a b th
  | _, _ => some []

/-! ## Contour Assembler (`CPUSlicer::assemble_polygons`,
`GPUSlicer::assemble_polygons`)

Both assemblers share the same graph construction and walk; they differ
only in the acceptance test applied to a finished walk.  The `HashMap`s
(`point_coords`, `adjacency`, `visited_edges`) are embedded as
association lists in key insertion order; the iteration order of
`adjacency.keys()` — randomized per `HashMap` instance in Rust — is an
explicit `order` parameter. -/

/-- A quantized planar key (`(i64, i64)`).  The `as i64` conversion is
modelled as exact `Int` (the coordinates in scope never approach
`i64::MAX`). -/
abbrev Key : Type := Int × Int

/-- `f64::round`: round half away from zero. -/
def roundQ (q : ℚ) : Int := if 0 ≤ q then ⌊q + 1 / 2⌋ else ⌈q - 1 / 2⌉

/-- `point_to_key` of the CPU assembler: scale the planar coordinates by
`1/epsilon` and round. -/
def pointToKey (p : Vec3) : Key := (roundQ (p.x * (1 / eps)), roundQ (p.y * (1 / eps)))

/-- `point_to_key` of the GPU assembler (its points are `(f32, f32)`). -/
def pointToKey2 (p : ℚ × ℚ) : Key := (roundQ (p.1 * (1 / eps)), roundQ (p.2 * (1 / eps)))

/-- Association-list lookup (models `HashMap::get`). -/
def kmLookup {α : Type} : List (Key × α) → Key → Option α
  | [], _ => none
  | (k, v) :: rest, k' => if k' = k then some v else kmLookup rest k'

/-- `map.entry(k).or_insert_with(|| v)`: first insertion wins, new keys
appended in insertion order. -/
def kmOrInsert {α : Type} (m : List (Key × α)) (k : Key) (v : α) : List (Key × α) :=
  match kmLookup m k with
  | some _ => m
  | none => m ++ [(k, v)]

/-- `adjacency.entry(k).or_default().push(v)`. -/
def adjPush : List (Key × List Key) → Key → Key → List (Key × List Key)
  | [], k, v => [(k, [v])]
  | (k', vs) :: rest, k, v =>
    if k = k' then (k', vs ++ [v]) :: rest else (k', vs) :: adjPush rest k v

/-- One segment's effect on `point_coords` and `adjacency`. -/
def buildMapsStep {P : Type} (key : P → Key)
    (st : List (Key × P) × List (Key × List Key)) (seg : P × P) :
    List (Key × P) × List (Key × List Key) :=
  let ks := key seg.1
  let ke := key seg.2
  (kmOrInsert (kmOrInsert st.1 ks seg.1) ke seg.2,
   adjPush (adjPush st.2 ks ke) ke ks)

/-- The "build adjacency map" loop over the segment list. -/
def buildMaps {P : Type} (key : P → Key) (segs : List (P × P)) :
    List (Key × P) × List (Key × List Key) :=
  segs.foldl (buildMapsStep key) ([], [])

/-- The adjacency keys in insertion order — the canonical instance of the
`adjacency.keys()` iteration order. -/
def insertionKeys {P : Type} (key : P → Key) (segs : List (P × P)) : List Key :=
  ((buildMaps key segs).2).map (fun e => e.1)

/-- The "find the next neighbor that hasn't been visited" scan: first
neighbor that is not the immediately-previous node and whose edge is
unvisited in either direction. -/
def findUnvisited (current prevK : Key) (visited : List (Key × Key)) :
    List Key → Option Key
  | [] => none
  | n :: rest =>
    if n ≠ prevK ∧ ¬ (current, n) ∈ visited ∧ ¬ (n, current) ∈ visited then some n
    else findUnvisited current prevK visited rest

/-- One finished traversal: the pushed key sequence (starting at
`startKey`), and the value of `current_key` when the loop broke.  The
loop "returned to the start" exactly when `endKey = startKey`. -/
structure Walk where
  startKey : Key
  keys : List Key
  endKey : Key
deriving DecidableEq, Repr

/-- The inner `loop { ... }` of `assemble_polygons`.  `fuel` bounds the
iteration count; the Rust loop terminates because `visited_edges` grows
on every continued iteration, so any fuel at least the number of
directed quantized edges is equivalent (fuel exhaustion behaves like the
"no unvisited neighbor" break).  Returns (pushed keys, final
`current_key`, final visited set). -/
def walkLoop (adj : List (Key × List Key)) (startKey : Key) :
    Nat → List Key → Key → List (Key × Key) → List Key × Key × List (Key × Key)
  | 0, acc, current, visited => (acc ++ [current], current, visited)
  | fuel + 1, acc, current, visited =>
    match kmLookup adj current with
    | none => (acc ++ [current], current, visited)
    | some nbrs =>
      match findUnvisited current (acc.getLastD current) visited nbrs with
      | none => (acc ++ [current], current, visited)
      | some n =>
        if n = startKey then (acc ++ [current], n, (current, n) :: visited)
        else walkLoop adj startKey fuel (acc ++ [current]) n ((current, n) :: visited)

/-- Start one traversal along the edge `startKey → nextKey` (the edge is
marked visited before the loop begins). -/
def startWalk (adj : List (Key × List Key)) (fuel : Nat) (startKey nextKey : Key)
    (visited : List (Key × Key)) : Walk × List (Key × Key) :=
  let r := walkLoop adj startKey fuel [startKey] nextKey ((startKey, nextKey) :: visited)
  (⟨startKey, r.1, r.2.1⟩, r.2.2)

/-- The inner `for &next_key in &adjacency[&start_key]` loop.  Every
finished walk is recorded; the CPU/GPU acceptance tests are applied
afterwards (they do not influence the visited-edge state). -/
def procNbrs (adj : List (Key × List Key)) (fuel : Nat) (startKey : Key) :
    List Key → List (Key × Key) → List Walk → List (Key × Key) × List Walk
  | [], visited, walks => (visited, walks)
  | n :: rest, visited, walks =>
    if (startKey, n) ∈ visited ∨ (n, startKey) ∈ visited then
      procNbrs adj fuel startKey rest visited walks
    else
      let r := startWalk adj fuel startKey n visited
      procNbrs adj fuel startKey rest r.2 (walks ++ [r.1])

/-- The outer `for &start_key in adjacency.keys()` loop, iterating in the
given `order`.  (For a key outside the adjacency map Rust's
`adjacency[&start_key]` would panic; the embedding yields no neighbors —
every order used in the development enumerates the adjacency keys.) -/
def procStarts (adj : List (Key × List Key)) (fuel : Nat) :
    List Key → List (Key × Key) → List Walk → List Walk
  | [], _, walks => walks
  | sk :: rest, visited, walks =>
    let r := procNbrs adj fuel sk ((kmLookup adj sk).getD []) visited walks
    procStarts adj fuel rest r.1 r.2

/-- All finished walks of one assembler run, in discovery order.  The
fuel `4 * segs.length + 4` exceeds the number of directed quantized
edges, so the inner loop never exhausts it. -/
def walksOfSegs {P : Type} (key : P → Key) (order : List Key) (segs : List (P × P)) :
    List Walk :=
  procStarts (buildMaps key segs).2 (4 * segs.length + 4) order [] []

/-- `point_coords[&key]` (total model; every key reached by a walk was
inserted). -/
def coordOf {P : Type} [Inhabited P] (coords : List (Key × P)) (k : Key) : P :=
  (kmLookup coords k).getD default

/-- CPU acceptance: `polygon_keys.len() >= 3 && current_key == start_key`. -/
def cpuAcceptedWalks (order : List Key) (segs : List (Vec3 × Vec3)) : List Walk :=
  (walksOfSegs pointToKey order segs).filter
    (fun w => decide (3 ≤ w.keys.length) && decide (w.endKey = w.startKey))

/-- `CPUSlicer::assemble_polygons` with an explicit key-iteration order:
accepted walks mapped back to representative coordinates. -/
def assemblePolygonsOrdered (order : List Key) (segs : List (Vec3 × Vec3)) :
    List (List Vec3) :=
  (cpuAcceptedWalks order segs).map
    (fun w => w.keys.map (coordOf (buildMaps pointToKey segs).1))

/-- `CPUSlicer::assemble_polygons` at the canonical (insertion-order) key
enumeration. -/
def assemblePolygons (segs : List (Vec3 × Vec3)) : List (List Vec3) :=
  assemblePolygonsOrdered (insertionKeys pointToKey segs) segs

/-- GPU acceptance: `polygon_keys.len() >= 3` only. -/
def gpuAcceptedWalks (order : List Key) (segs : List ((ℚ × ℚ) × (ℚ × ℚ))) : List Walk :=
  (walksOfSegs pointToKey2 order segs).filter (fun w => decide (3 ≤ w.keys.length))

/-- `GPUSlicer::assemble_polygons` with an explicit key-iteration order:
a walk of at least 3 keys is emitted whether or not it closed; if it
closed, its last key is popped ("remove the last point"); points become
`Vector3::new(x, y, 0.0)`. -/
def gpuAssemblePolygonsOrdered (order : List Key) (segs : List ((ℚ × ℚ) × (ℚ × ℚ))) :
    List (List Vec3) :=
  (gpuAcceptedWalks order segs).map
    (fun w =>
      ((if w.endKey = w.startKey then w.keys.dropLast else w.keys).map
        (fun k =>
          let p := coordOf (buildMaps pointToKey2 segs).1 k
          (⟨p.1, p.2, 0⟩ : Vec3))))

/-- `GPUSlicer::assemble_polygons` at the canonical key enumeration. -/
def gpuAssemblePolygons (segs : List ((ℚ × ℚ) × (ℚ × ℚ))) : List (List Vec3) :=
  gpuAssemblePolygonsOrdered (insertionKeys pointToKey2 segs) segs

/-- The quantized-key cross-section of a unit triangle loop at z = 0,
used to witness the CPU closed-loop invariant. -/
def triLoopSegs : List (Vec3 × Vec3) :=
  [(⟨0, 0, 0⟩, ⟨1, 0, 0⟩), (⟨1, 0, 0⟩, ⟨0, 1, 0⟩), (⟨0, 1, 0⟩, ⟨0, 0, 0⟩)]

/-- The single accepted CPU walk on `triLoopSegs`. -/
def wTriLoop : Walk :=
  ⟨(0, 0), [(0, 0), (1000000, 0), (0, 1000000)], (0, 0)⟩

/-- An open 2-segment chain (no closed loop exists in it at all). -/
def chainSegs : List ((ℚ × ℚ) × (ℚ × ℚ)) :=
  [((0, 0), (1, 0)), ((1, 0), (0, 2))]

/-! ## CPU slicing pipeline (`CPUSlicer::generate_slice_images`) -/

/-- The x-coordinates of all vertices, in order (`compute_bounding_box`). -/
def xCoords : List Tri → List ℚ
  | [] => []
  | t :: ts => t.v0.x :: t.v1.x :: t.v2.x :: xCoords ts

/-- The y-coordinates of all vertices, in order (`compute_bounding_box`). -/
def yCoords : List Tri → List ℚ
  | [] => []
  | t :: ts => t.v0.y :: t.v1.y :: t.v2.y :: yCoords ts

/-- The `CPUSlicer` parameter struct: image dimensions and slice
thickness. -/
structure CPUSlicerP where
  x : Nat
  y : Nat
  sliceThickness : ℚ
deriving DecidableEq, Repr

/-- A slice image.  The rasterizer (`imageproc::draw_polygon_mut`) is an
external crate; per spec §4.4 it is a pure function of the mapped
polygon points and the image dimensions, so the image value is
represented by those inputs (background-0 raster with the listed
polygons filled at 255). -/
structure SliceImage where
  width : Nat
  height : Nat
  polys : List (List (Int × Int))
deriving DecidableEq, Repr

/-- Rust `as i32`: truncation toward zero. -/
def truncInt (q : ℚ) : Int := if 0 ≤ q then ⌊q⌋ else -⌊-q⌋

/-- `CPUSlicer::model_to_image_coords`: scale from the bounding-box
minimum and flip the Y axis. -/
def modelToImageCoords (p : Vec3) (minX minY scale : ℚ) (imageHeight : Nat) :
    Int × Int :=
  (truncInt ((p.x - minX) * scale),
   (imageHeight : Int) - truncInt ((p.y - minY) * scale))

/-- The polygons assembled at one plane height (segment collection
followed by contour assembly under the traversal order `ordFn segs`). -/
def cpuPlanePolys (ts : List Tri) (ordFn : List (Vec3 × Vec3) → List Key) (z : ℚ) :
    List (List Vec3) :=
  assemblePolygonsOrdered (ordFn (collectIntersectionSegments ts z))
    (collectIntersectionSegments ts z)

/-- The uniform scale `min(x / model_width, y / model_height)` from the
bounding box.  (For an empty triangle list the bounding box folds stay at
`±INFINITY` in Rust; the `getD 0` default is never consumed because the
plane list is then empty.  Division by a zero extent yields `∞` in Rust
and `0` in `ℚ`; no claim inspects coordinates of such a model.) -/
def cpuScale (s : CPUSlicerP) (ts : List Tri) : ℚ :=
  min ((s.x : ℚ) / ((maxFold (xCoords ts)).getD 0 - (minFold (xCoords ts)).getD 0))
    ((s.y : ℚ) / ((maxFold (yCoords ts)).getD 0 - (minFold (yCoords ts)).getD 0))

/-- Rendering of one plane: map every polygon vertex into image
coordinates and fill (the filled raster is represented by its inputs,
see `SliceImage`). -/
def cpuRenderPlane (s : CPUSlicerP) (ts : List Tri)
    (ordFn : List (Vec3 × Vec3) → List Key) (z : ℚ) : SliceImage :=
  { width := s.x
    height := s.y
    polys := (cpuPlanePolys ts ordFn z).map
      (fun poly => poly.map
        (fun p => modelToImageCoords p ((minFold (xCoords ts)).getD 0)
          ((minFold (yCoords ts)).getD 0) (cpuScale s ts) s.y)) }

/-- `CPUSlicer::generate_slice_images`.  `fuel` bounds the plane-sweep
loop (`none` = the loop has not terminated); the function itself has no
error return — it always produces `Ok` when the sweep terminates.  A
plane with no segments, or whose assembly yields no polygons, is
dropped (`filter_map ... return None`). -/
def cpuGenerateSliceImages (fuel : Nat) (s : CPUSlicerP) (ts : List Tri)
    (ordFn : List (Vec3 × Vec3) → List Key) :
    Option (Except String (List SliceImage)) :=
  match candidatePlanes fuel ts s.sliceThickness with
  | none => none
  | some planes =>
    some (Except.ok (planes.filterMap (fun z =>
      if collectIntersectionSegments ts z = [] then none
      else if cpuPlanePolys ts ordFn z = [] then none
      else some (cpuRenderPlane s ts ordFn z))))

/-- The canonical traversal order for the CPU assembler. -/
def ordCanon : List (Vec3 × Vec3) → List Key := fun segs => insertionKeys pointToKey segs

/-! ## GPU slicing pipeline (`GPUSlicer::generate_slice_images`) -/

/-- The `GPUSlicer` parameters read by `generate_slice_images` (the
`physical_x`/`physical_y` fields are never used there). -/
structure GPUSlicerP where
  x : Nat
  y : Nat
  sliceThickness : ℚ
deriving DecidableEq, Repr

/-- The canonical traversal order for the GPU assembler. -/
def gpuOrdCanon : List ((ℚ × ℚ) × (ℚ × ℚ)) → List Key :=
  fun segs => insertionKeys pointToKey2 segs

/-- Modelled from the spec: the compute shader
`shaders/slicer_shader.glsl` read by `GPUSlicer::generate_slice_images`
is not part of the repository sources.  Per spec §4.2 and §5(b) the
offload kernel runs the plane intersector for every triangle × every
plane and appends `(x1, y1, x2, y2, slice_index)` records to the output
buffer via an atomic counter; the append order is scheduler-dependent
and is fixed triangle-major here (no claim settled below depends on
record order). -/
def shaderRecords (ts : List Tri) (planes : List ℚ) :
    List (((ℚ × ℚ) × (ℚ × ℚ)) × Nat) :=
  match ts with
  | [] => []
  | t :: rest =>
    (planes.enum.filterMap (fun kz =>
      match intersectTriangleWithPlane t kz.2 with
      | [a, b] => some (((a.x, a.y), (b.x, b.y)), kz.1)
      | _ => none)) ++ shaderRecords rest planes

/-- `GPUSlicer::organize_segments` followed by the per-plane lookup
`plane_segments.get(&slice_index).unwrap_or(&default)`: the segments
whose slice index equals `k`, in record order (records with an
out-of-range index never equal a valid `k`, mirroring the skip). -/
def segsForPlane (recs : List (((ℚ × ℚ) × (ℚ × ℚ)) × Nat)) (k : Nat) :
    List ((ℚ × ℚ) × (ℚ × ℚ)) :=
  (recs.filter (fun r => decide (r.2 = k))).map (fun r => r.1)

/-- The polygons the GPU path assembles at plane index `k`. -/
def gpuPlanePolys (ts : List Tri) (planes : List ℚ)
    (ordFn : List ((ℚ × ℚ) × (ℚ × ℚ)) → List Key) (k : Nat) : List (List Vec3) :=
  gpuAssemblePolygonsOrdered (ordFn (segsForPlane (shaderRecords ts planes) k))
    (segsForPlane (shaderRecords ts planes) k)

/-- The point mapping inside `GPUSlicer::generate_slice_image`
(centering offsets added, Y flipped). -/
def gpuMapPoint (p : Vec3) (minX minY scale : ℚ) (imageHeight : Nat)
    (xOff yOff : Int) : Int × Int :=
  (truncInt ((p.x - minX) * scale) + xOff,
   (imageHeight : Int) - truncInt ((p.y - minY) * scale) + yOff)

/-- Fueled body of the trim loop below. -/
def trimClosedAux : Nat → List (Int × Int) → List (Int × Int)
  | 0, pts => pts
  | n + 1, pts =>
    if 3 ≤ pts.length ∧ pts.head? = pts.getLast? then trimClosedAux n pts.dropLast
    else pts

/-- The `while points.len() >= 3 && points.first() == points.last()
{ points.pop(); }` loop of `generate_slice_image` (each iteration
removes one point, so `pts.length` fuel always suffices). -/
def trimClosed (pts : List (Int × Int)) : List (Int × Int) :=
  trimClosedAux pts.length pts

/-- `GPUSlicer::generate_slice_image`: map every polygon into image
coordinates, trim a repeated closing point, draw only polygons that
still have at least 3 points (smaller ones are skipped with a log). -/
def gpuRenderPlane (g : GPUSlicerP) (polys : List (List Vec3))
    (minX minY scale : ℚ) (xOff yOff : Int) : SliceImage :=
  { width := g.x
    height := g.y
    polys := (polys.map (fun poly =>
      trimClosed (poly.map
        (fun p => gpuMapPoint p minX minY scale g.y xOff yOff)))).filter
      (fun pts => decide (3 ≤ pts.length)) }

/-- `GPUSlicer::generate_slice_images`: same plane sweep as the CPU
path; errors out when the kernel produced no segments at all; otherwise
produces **one image per candidate plane** (`slice_z_values.iter().map`)
— planes with no segments get the empty default and render blank. -/
def gpuGenerateSliceImages (fuel : Nat) (g : GPUSlicerP) (ts : List Tri)
    (ordFn : List ((ℚ × ℚ) × (ℚ × ℚ)) → List Key) :
    Option (Except String (List SliceImage)) :=
  match candidatePlanes fuel ts g.sliceThickness with
  | none => none
  | some planes =>
    if (shaderRecords ts planes).length = 0 then
      some (Except.error "Compute shader did not generate any segments.")
    else
      some (Except.ok (planes.enum.map (fun kz =>
        gpuRenderPlane g (gpuPlanePolys ts planes ordFn kz.1)
          ((minFold (xCoords ts)).getD 0) ((minFold (yCoords ts)).getD 0)
          (min ((g.x : ℚ) / ((maxFold (xCoords ts)).getD 0 - (minFold (xCoords ts)).getD 0))
            ((g.y : ℚ) / ((maxFold (yCoords ts)).getD 0 - (minFold (yCoords ts)).getD 0)))
          (truncInt (((g.x : ℚ) - ((maxFold (xCoords ts)).getD 0 - (minFold (xCoords ts)).getD 0) *
            (min ((g.x : ℚ) / ((maxFold (xCoords ts)).getD 0 - (minFold (xCoords ts)).getD 0))
              ((g.y : ℚ) / ((maxFold (yCoords ts)).getD 0 - (minFold (yCoords ts)).getD 0)))) / 2))
          (truncInt (((g.y : ℚ) - ((maxFold (yCoords ts)).getD 0 - (minFold (yCoords ts)).getD 0) *
            (min ((g.x : ℚ) / ((maxFold (xCoords ts)).getD 0 - (minFold (xCoords ts)).getD 0))
              ((g.y : ℚ) / ((maxFold (yCoords ts)).getD 0 - (minFold (yCoords ts)).getD 0)))) / 2)))))

/-! ## Concrete inputs for the plane-dropping claims -/

/-- A triangle whose whole z = 0 cross-section is exactly the segment
from `(px, py)` to `(qx, qy)`: the two edges through the apex
`(0, 0, -1)` cross the plane at their midpoints. -/
def triSeg (px py qx qy : ℚ) : Tri :=
  ⟨⟨2 * px, 2 * py, 1⟩, ⟨0, 0, -1⟩, ⟨2 * qx, 2 * qy, 1⟩⟩

/-- Three triangles whose z = 0 cross-section is a closed triangle loop
(0,0)–(1,0)–(0,1); their z-extent is [-1, 1], so with thickness 1 the
candidate planes are -1, 0, 1 and only the middle plane has segments. -/
def trisC1 : List Tri := [triSeg 0 0 1 0, triSeg 1 0 0 1, triSeg 0 1 0 0]

/-- The image count of an `Ok` pipeline result (`none` for an error or
a non-terminating sweep). -/
def okImageCount : Option (Except String (List SliceImage)) → Option Nat
  | some (Except.ok imgs) => some imgs.length
  | _ => none

/-! ## Concrete inputs for the determinism claims -/

/-- `trisC1` plus a pendant: one more triangle whose cross-section
attaches the dangling segment (0,0)–(2,2) to the loop vertex (0,0). -/
def trisC9 : List Tri := trisC1 ++ [triSeg 0 0 2 2]

/-- The reversed traversal order — a permutation of the canonical
adjacency-key enumeration, as Rust's randomized `HashMap` iteration may
produce. -/
def ordRev : List (Vec3 × Vec3) → List Key :=
  fun segs => (insertionKeys pointToKey segs).reverse

/-! ## Mesh Builder (`mesh.rs`) -/

/-- `mesh::Vertex`: position and normal (`[f32; 3]` each, modelled in
`ℚ`). -/
structure MVertex where
  position : Vec3
  normal : Vec3
deriving DecidableEq, Repr

instance : Inhabited MVertex := ⟨⟨⟨0, 0, 0⟩, ⟨0, 0, 0⟩⟩⟩

/-- `mesh::Mesh`, reduced to the fields the claims are about (the cached
`triangles_for_slicing` is untouched by the functions below). -/
structure Mesh where
  vertices : List MVertex
  indices : List Nat
deriving DecidableEq, Repr

/-- `indices.chunks(3)` restricted to complete triples.  Rust's
`chunks(3)` also yields a trailing partial chunk, on which the loop
bodies' `triplet[1]`/`triplet[2]` indexing panics; the claims about
these functions carry a `length % 3 = 0` hypothesis, under which no
partial chunk exists. -/
def chunks3 : List Nat → List (Nat × Nat × Nat)
  | a :: b :: c :: rest => (a, b, c) :: chunks3 rest
  | _ => []

/-- `self.vertices[i]` (total model; Rust panics out of bounds, and the
claims carry in-bounds hypotheses where vertex data matters). -/
def getV (m : Mesh) (i : Nat) : MVertex := m.vertices.getD i default

/-- The `norm > 1e-6` test of `remove_degenerate_triangles` on the edge
cross product, embedded on squares. -/
def tripleKeep (m : Mesh) (tr : Nat × Nat × Nat) : Bool :=
  decide (eps2 < normSq (crossV
    (subV (getV m tr.2.1).position (getV m tr.1).position)
    (subV (getV m tr.2.2).position (getV m tr.1).position)))

/-- `Mesh::remove_degenerate_triangles`: rebuild the index list keeping
exactly the triplets whose edge cross-product magnitude exceeds `1e-6`;
the vertex list is not touched. -/
def removeDegenerateTriangles (m : Mesh) : Mesh :=
  { m with
    indices :=
      (chunks3 m.indices).foldl
        (fun acc tr => if tripleKeep m tr then acc ++ [tr.1, tr.2.1, tr.2.2] else acc)
        [] }

/-- The claim's description of the retained indices: exactly the
triplets whose edge cross-product magnitude exceeds `1e-6`, in their
original order, flattened back to an index list. -/
def specRetainedIndices (m : Mesh) : List Nat :=
  ((chunks3 m.indices).filter (tripleKeep m)).foldr
    (fun tr acc => tr.1 :: tr.2.1 :: tr.2.2 :: acc) []

/-- A mesh with one proper triangle and one degenerate (repeated-vertex)
triangle. -/
def meshC10 : Mesh :=
  ⟨[⟨⟨0, 0, 0⟩, ⟨0, 0, 1⟩⟩, ⟨⟨1, 0, 0⟩, ⟨0, 0, 1⟩⟩, ⟨⟨0, 1, 0⟩, ⟨0, 0, 1⟩⟩],
   [0, 1, 2, 0, 0, 0]⟩

/-! ## Normal synthesis (`Mesh::compute_vertex_normals`) -/

/-- `Mesh::normalize` (the `[f32; 3]` helper used by
`compute_vertex_normals`): when `sqrt(normSq v) > 1e-6` — embedded as
`normSq v > eps2` — divide by the norm (the float `sqrt` is the
parameter `s`); otherwise return the **zero vector** `[0.0, 0.0, 0.0]`.
(The `+Z` default lives only in `Mesh::normalize_vector`, which
`compute_vertex_normals` never calls.) -/
def mNormalize (s : ℚ → ℚ) (v : Vec3) : Vec3 :=
  if eps2 < normSq v then
    ⟨v.x / s (normSq v), v.y / s (normSq v), v.z / s (normSq v)⟩
  else ⟨0, 0, 0⟩

/-- The first loop of `compute_vertex_normals`: reset every vertex
normal to zero. -/
def zeroNormals (vs : List MVertex) : List MVertex :=
  vs.map (fun v => { v with normal := ⟨0, 0, 0⟩ })

/-- One `self.vertices[i].normal = [... + face_normal ...]` statement
(no-op out of bounds, where Rust would panic). -/
def addNormalAt (vs : List MVertex) (i : Nat) (n : Vec3) : List MVertex :=
  vs.set i { vs.getD i default with normal := addV (vs.getD i default).normal n }

/-- The face normal computed by `compute_vertex_normals`:
`normalize(cross(v1 - v0, v2 - v0))` with `Mesh::normalize`'s zero
default. -/
def faceNormal (s : ℚ → ℚ) (p0 p1 p2 : Vec3) : Vec3 :=
  mNormalize s (crossV (subV p1 p0) (subV p2 p0))

/-- One triangle's accumulation: read the three positions (normal
updates never change positions) and add the face normal into the three
vertex normals sequentially — a repeated index accumulates repeatedly,
as in the Rust read-modify-write sequence. -/
def accumTriple (s : ℚ → ℚ) (vs : List MVertex) (tr : Nat × Nat × Nat) : List MVertex :=
  addNormalAt (addNormalAt (addNormalAt vs tr.1
      (faceNormal s (vs.getD tr.1 default).position (vs.getD tr.2.1 default).position
        (vs.getD tr.2.2 default).position))
    tr.2.1
      (faceNormal s (vs.getD tr.1 default).position (vs.getD tr.2.1 default).position
        (vs.getD tr.2.2 default).position))
    tr.2.2
      (faceNormal s (vs.getD tr.1 default).position (vs.getD tr.2.1 default).position
        (vs.getD tr.2.2 default).position)

/-- `Mesh::compute_vertex_normals`: zero all normals, accumulate the
face normal of every index triple, then normalize every vertex
normal. -/
def computeVertexNormals (s : ℚ → ℚ) (m : Mesh) : Mesh :=
  { m with
    vertices :=
      ((chunks3 m.indices).foldl (accumTriple s) (zeroNormals m.vertices)).map
        (fun v => { v with normal := mNormalize s v.normal }) }

/-- The claim's face normal: the normalized cross product of the edge
vectors, "defaulting to the +Z unit vector (0,0,1) when the cross
product has zero (below-tolerance) length". -/
def specFaceNormalPlusZ (s : ℚ → ℚ) (p0 p1 p2 : Vec3) : Vec3 :=
  if normSq (crossV (subV p1 p0) (subV p2 p0)) ≤ eps2 then ⟨0, 0, 1⟩
  else mNormalize s (crossV (subV p1 p0) (subV p2 p0))

/-- The amended face normal: same, but the below-tolerance default is
the zero vector. -/
def specFaceNormalZero (s : ℚ → ℚ) (p0 p1 p2 : Vec3) : Vec3 :=
  if normSq (crossV (subV p1 p0) (subV p2 p0)) ≤ eps2 then ⟨0, 0, 0⟩
  else mNormalize s (crossV (subV p1 p0) (subV p2 p0))

/-- The spec's accumulation step with a given face-normal function: add
it into each of the triangle's three vertex normals. -/
def specAccumTriple (face : Vec3 → Vec3 → Vec3 → Vec3) (vs : List MVertex)
    (tr : Nat × Nat × Nat) : List MVertex :=
  [tr.1, tr.2.1, tr.2.2].foldl
    (fun vs2 i => addNormalAt vs2 i
      (face (vs.getD tr.1 default).position (vs.getD tr.2.1 default).position
        (vs.getD tr.2.2 default).position))
    vs

/-- The claim's algorithm, stated from its words: zero every vertex
normal; for each index triplet add the face normal (with the claimed +Z
default) into each of the triangle's three vertex normals; finally
normalize every vertex normal. -/
def specNormalSynthesisPlusZ (s : ℚ → ℚ) (m : Mesh) : Mesh :=
  { m with
    vertices :=
      ((chunks3 m.indices).foldl (specAccumTriple (specFaceNormalPlusZ s))
          (zeroNormals m.vertices)).map
        (fun v => { v with normal := mNormalize s v.normal }) }

/-- The amended algorithm: identical except that a below-tolerance cross
product contributes the zero vector. -/
def specNormalSynthesisZero (s : ℚ → ℚ) (m : Mesh) : Mesh :=
  { m with
    vertices :=
      ((chunks3 m.indices).foldl (specAccumTriple (specFaceNormalZero s))
          (zeroNormals m.vertices)).map
        (fun v => { v with normal := mNormalize s v.normal }) }

/-- A square-root stand-in exact at the only point where the
counterexample evaluation consults it. -/
def sqrtCex : ℚ → ℚ := fun q => if q = 9 then 3 else 0

/-- A mesh whose single (degenerate) triangle repeats one vertex three
times; its initial normal is junk to exercise the zeroing step. -/
def meshC3 : Mesh := ⟨[⟨⟨0, 0, 0⟩, ⟨1, 2, 3⟩⟩], [0, 0, 0]⟩

/-! ## Support-Island Analyzer (`mesh_island_analyzer.rs`)

`analyze_islands` uses `up_direction = (0, 0, -1)` ("Negative Z is up"),
`build_platform_z = 0.0` and `EPSILON = 1e-6`.  The zero-length test
`direction.norm() == 0.0` is embedded as `normSq = 0`, and the
disqualification test `normalized_direction.dot(&up_direction) < 0.0` —
whose sign equals the sign of `-(vertex.z − neighbor.z)` — as
`0 < vertex.z − neighbor.z`.  The `HashMap` iteration order only
permutes the returned list; the claims below are about membership. -/

/-- Association-list lookup for the `vertex_edges` map. -/
def nmLookup : List (Nat × List Nat) → Nat → Option (List Nat)
  | [], _ => none
  | (k, v) :: rest, k' => if k' = k then some v else nmLookup rest k'

/-- `vertex_edges.entry(k).or_insert_with(Vec::new).extend(vs)`. -/
def nmExtend : List (Nat × List Nat) → Nat → List Nat → List (Nat × List Nat)
  | [], k, vs => [(k, vs)]
  | (k', vs') :: rest, k, vs =>
    if k = k' then (k', vs' ++ vs) :: rest else (k', vs') :: nmExtend rest k vs

/-- One triangle's contribution to `vertex_edges`: each of its three
index slots receives the other slots (self-references excluded by
value). -/
def veAddTriangle (acc : List (Nat × List Nat)) (tr : Nat × Nat × Nat) :
    List (Nat × List Nat) :=
  [tr.1, tr.2.1, tr.2.2].foldl
    (fun acc2 i => nmExtend acc2 i
      ([tr.1, tr.2.1, tr.2.2].filter (fun j => decide (j ≠ i))))
    acc

/-- `vertex_edges.entry(i).or_insert_with(Vec::new)` for the
ensure-all-vertices loop. -/
def veEnsure (acc : List (Nat × List Nat)) (i : Nat) : List (Nat × List Nat) :=
  match nmLookup acc i with
  | some _ => acc
  | none => acc ++ [(i, [])]

/-- The `vertex_edges` map of `analyze_islands`: populate from the index
triples, then ensure every vertex index `0..vertices.len()` has an
entry. -/
def vertexEdges (m : Mesh) : List (Nat × List Nat) :=
  (List.range m.vertices.length).foldl veEnsure
    ((chunks3 m.indices).foldl veAddTriangle [])

/-- The per-neighbor loop of `analyze_islands`: skip (`continue`)
zero-length directions; disqualify (`break`, not an island) when the
vertex lies strictly above the neighbor (the embedded
`dot(normalized, (0,0,-1)) < 0` test); otherwise keep scanning.  An
exhausted scan leaves the vertex an island. -/
def isIslandCheck (m : Mesh) (vi : Nat) : List Nat → Bool
  | [] => true
  | n :: rest =>
    if normSq (subV (getV m vi).position (getV m n).position) = 0 then
      isIslandCheck m vi rest
    else if 0 < (getV m vi).position.z - (getV m n).position.z then false
    else isIslandCheck m vi rest

/-- `MeshIslandAnalyzer::analyze_islands`: for every `vertex_edges`
entry, skip vertices within `EPSILON` of the build platform
(`|z − 0| < 1e-6`), report the rest as islands unless some informative
neighbor disqualifies them. -/
def analyzeIslands (m : Mesh) : List Nat :=
  (vertexEdges m).foldl
    (fun acc e =>
      if |(getV m e.1).position.z - 0| < eps then acc
      else if isIslandCheck m e.1 e.2 then acc ++ [e.1] else acc) []

/-- The unit square resting on the build platform (spec §8 island
scenario). -/
def meshSquare0 : Mesh :=
  ⟨[⟨⟨0, 0, 0⟩, ⟨0, 0, 1⟩⟩, ⟨⟨1, 0, 0⟩, ⟨0, 0, 1⟩⟩, ⟨⟨1, 1, 0⟩, ⟨0, 0, 1⟩⟩,
    ⟨⟨0, 1, 0⟩, ⟨0, 0, 1⟩⟩],
   [0, 1, 2, 0, 2, 3]⟩

/-- A horizontal triangle strictly above the platform: every vertex has
an informative neighbor at the same height — the claim's "dot product
≤ 0" disqualification condition holds — yet all three vertices are
reported as islands (the code disqualifies only on a strict
inequality, with the opposite orientation).  This matches the
repository's own `test_mesh_with_horizontal_edges`. -/
def meshHoriz : Mesh :=
  ⟨[⟨⟨0, 0, 1 / 2⟩, ⟨0, 0, 1⟩⟩, ⟨⟨1, 0, 1 / 2⟩, ⟨0, 0, 1⟩⟩,
    ⟨⟨1 / 2, 1, 1 / 2⟩, ⟨0, 0, 1⟩⟩],
   [0, 1, 2]⟩

/-- An isolated off-platform vertex (no triangles at all). -/
def meshIso : Mesh := ⟨[⟨⟨0, 0, 1⟩, ⟨0, 0, 1⟩⟩], []⟩

/-! ## Theorems -/

/-- Helper: a triangle whose intersection point count is not exactly 2 is
skipped, and the remaining triangles are processed as if it were absent. -/
theorem collect_skip_middle (pre post : List Tri) (t : Tri) (z : ℚ)
    (h : (intersectTriangleWithPlane t z).length ≠ 2) :
    collectIntersectionSegments (pre ++ t :: post) z =
      collectIntersectionSegments (pre ++ post) z := by
  induction pre with
  | nil =>
    simp only [List.nil_append, collectIntersectionSegments]
    split
    · next a b heq =>
      exact absurd (by rw [heq]; rfl : (intersectTriangleWithPlane t z).length = 2) h
    · rfl
  | cons p ps ih =>
    simp only [List.cons_append, collectIntersectionSegments]
    split
    · exact congrArg (List.cons _) ih
    · exact ih

/-- **C7** (intersection degeneracy).  If every signed distance is either
strictly beyond `eps` on the positive side or within `eps` of the plane,
or symmetrically every distance is strictly beyond `eps` on the negative
side or within `eps`, then the plane intersector returns no points at
all — in particular a triangle entirely on one side yields zero
segments, and a triangle with one vertex within `eps` of the plane and
the other two strictly on the same side (an instance of the hypothesis)
yields 0 points, hence "0 or 1, never 2" and never a segment. -/
theorem c7_one_side_yields_no_points (t : Tri) (z : ℚ)
    (h : ((eps < t.v0.z - z ∨ |t.v0.z - z| ≤ eps) ∧
          (eps < t.v1.z - z ∨ |t.v1.z - z| ≤ eps) ∧
          (eps < t.v2.z - z ∨ |t.v2.z - z| ≤ eps)) ∨
         ((t.v0.z - z < -eps ∨ |t.v0.z - z| ≤ eps) ∧
          (t.v1.z - z < -eps ∨ |t.v1.z - z| ≤ eps) ∧
          (t.v2.z - z < -eps ∨ |t.v2.z - z| ≤ eps))) :
    intersectTriangleWithPlane t z = [] ∧
    (intersectTriangleWithPlane t z).length ≤ 1 ∧
    collectIntersectionSegments [t] z = [] := by
  have hepos : (0 : ℚ) < eps := by norm_num [eps]
  have hguard : ¬ ((eps < t.v0.z - z ∨ eps < t.v1.z - z ∨ eps < t.v2.z - z) ∧
      (t.v0.z - z < -eps ∨ t.v1.z - z < -eps ∨ t.v2.z - z < -eps)) := by
    rintro ⟨hp, hn⟩
    rcases h with ⟨h0, h1, h2⟩ | ⟨h0, h1, h2⟩
    · rcases hn with hd | hd | hd
      · rcases h0 with h' | h' <;> [linarith; linarith [abs_le.mp h']]
      · rcases h1 with h' | h' <;> [linarith; linarith [abs_le.mp h']]
      · rcases h2 with h' | h' <;> [linarith; linarith [abs_le.mp h']]
    · rcases hp with hd | hd | hd
      · rcases h0 with h' | h' <;> [linarith; linarith [abs_le.mp h']]
      · rcases h1 with h' | h' <;> [linarith; linarith [abs_le.mp h']]
      · rcases h2 with h' | h' <;> [linarith; linarith [abs_le.mp h']]
  have hempty : intersectTriangleWithPlane t z = [] := by
    unfold intersectTriangleWithPlane
    exact if_pos hguard
  refine ⟨hempty, by rw [hempty]; simp, ?_⟩
  simp [collectIntersectionSegments, hempty]

/-- Witness for C7 at a concrete input: one vertex exactly on the plane,
the other two strictly above it. -/
theorem c7_one_side_yields_no_points_witness :
    intersectTriangleWithPlane ⟨⟨0, 0, 0⟩, ⟨1, 0, 1⟩, ⟨0, 1, 1⟩⟩ 0 = [] ∧
    (intersectTriangleWithPlane ⟨⟨0, 0, 0⟩, ⟨1, 0, 1⟩, ⟨0, 1, 1⟩⟩ 0).length ≤ 1 ∧
    collectIntersectionSegments [⟨⟨0, 0, 0⟩, ⟨1, 0, 1⟩, ⟨0, 1, 1⟩⟩] 0 = [] :=
  c7_one_side_yields_no_points ⟨⟨0, 0, 0⟩, ⟨1, 0, 1⟩, ⟨0, 1, 1⟩⟩ 0 (by with_unfolding_all decide)

/-- **C8** (multi-point intersections rejected).  Whenever the
per-triangle intersection yields a point count other than 2 — which
covers the claim's "more than 2 points" case — the segment-collection
stage passes no segment from that triangle to the assembler and
processes the remaining triangles exactly as if the triangle were
absent (no abort). -/
theorem c8_non_two_point_result_rejected (pre post : List Tri) (t : Tri) (z : ℚ)
    (h : (intersectTriangleWithPlane t z).length ≠ 2) :
    collectIntersectionSegments (pre ++ t :: post) z =
      collectIntersectionSegments (pre ++ post) z :=
  collect_skip_middle pre post t z h

/-- Witness for C8 at a concrete input: a rejected triangle surrounded by
a segment-producing one. -/
theorem c8_non_two_point_result_rejected_witness :
    (intersectTriangleWithPlane triAbove 0).length ≠ 2 ∧
    collectIntersectionSegments [triCross, triAbove] 0 =
      collectIntersectionSegments [triCross] 0 :=
  ⟨by with_unfolding_all decide, c8_non_two_point_result_rejected [triCross] [] triAbove 0 (by with_unfolding_all decide)⟩

/-- The keys pushed by the inner loop extend the accumulator. -/
theorem walkLoop_keys_prefix (adj : List (Key × List Key)) (sk : Key) :
    ∀ (fuel : Nat) (acc : List Key) (cur : Key) (vis : List (Key × Key)),
      ∃ rest, (walkLoop adj sk fuel acc cur vis).1 = acc ++ rest := by
  intro fuel
  induction fuel with
  | zero => intro acc cur vis; exact ⟨[cur], rfl⟩
  | succ n ih =>
    intro acc cur vis
    cases hl : kmLookup adj cur with
    | none => exact ⟨[cur], by simp only [walkLoop, hl]⟩
    | some nbrs =>
      cases hf : findUnvisited cur (acc.getLastD cur) vis nbrs with
      | none => exact ⟨[cur], by simp only [walkLoop, hl, hf]⟩
      | some m =>
        by_cases hm : m = sk
        · exact ⟨[cur], by simp only [walkLoop, hl, hf, if_pos hm]⟩
        · obtain ⟨rest, hr⟩ := ih (acc ++ [cur]) m ((cur, m) :: vis)
          refine ⟨[cur] ++ rest, ?_⟩
          simp only [walkLoop, hl, hf, if_neg hm]
          rw [hr, List.append_assoc]

/-- A walk started by `startWalk` records its start key first. -/
theorem startWalk_head (adj : List (Key × List Key)) (fuel : Nat) (sk n : Key)
    (vis : List (Key × Key)) :
    (startWalk adj fuel sk n vis).1.keys.head? =
      some (startWalk adj fuel sk n vis).1.startKey := by
  obtain ⟨rest, hr⟩ := walkLoop_keys_prefix adj sk fuel [sk] n ((sk, n) :: vis)
  simp only [startWalk, hr]
  rfl

/-- `procNbrs` only adds walks whose first key is their start key. -/
theorem procNbrs_head (adj : List (Key × List Key)) (fuel : Nat) (sk : Key) :
    ∀ (ns : List Key) (vis : List (Key × Key)) (walks : List Walk),
      (∀ w ∈ walks, w.keys.head? = some w.startKey) →
      ∀ w ∈ (procNbrs adj fuel sk ns vis walks).2, w.keys.head? = some w.startKey := by
  intro ns
  induction ns with
  | nil => intro vis walks h w hw; exact h w hw
  | cons n rest ih =>
    intro vis walks h w hw
    rw [procNbrs] at hw
    split at hw
    · exact ih vis walks h w hw
    · refine ih _ _ ?_ w hw
      intro w' hw'
      rcases List.mem_append.mp hw' with h1 | h2
      · exact h w' h1
      · rw [List.mem_singleton.mp h2]
        exact startWalk_head adj fuel sk n vis

/-- `procStarts` only adds walks whose first key is their start key. -/
theorem procStarts_head (adj : List (Key × List Key)) (fuel : Nat) :
    ∀ (order : List Key) (vis : List (Key × Key)) (walks : List Walk),
      (∀ w ∈ walks, w.keys.head? = some w.startKey) →
      ∀ w ∈ procStarts adj fuel order vis walks, w.keys.head? = some w.startKey := by
  intro order
  induction order with
  | nil => intro vis walks h w hw; exact h w hw
  | cons sk rest ih =>
    intro vis walks h w hw
    rw [procStarts] at hw
    exact ih _ _ (procNbrs_head adj fuel sk _ vis walks h) w hw

/-- Every finished walk of an assembler run records its start key first. -/
theorem walksOfSegs_head {P : Type} (key : P → Key) (order : List Key)
    (segs : List (P × P)) :
    ∀ w ∈ walksOfSegs key order segs, w.keys.head? = some w.startKey :=
  procStarts_head _ _ order [] [] (fun w hw => absurd hw (List.not_mem_nil w))

/-- **C6 (amended)**.  CPU assembler: every accepted walk has at least 3
keys, ended back at its start key (the closed-loop invariant), and
begins with its start key; hence every CPU output polygon has ≥ 3
vertices.  GPU assembler: the acceptance test checks only `len() >= 3`
— a closed walk has its final key popped and an open chain is emitted
unchanged, so a GPU output polygon is only guaranteed ≥ 2 vertices and
need not come from a closed walk. -/
theorem c6_closed_loop_invariant :
    (∀ (order : List Key) (segs : List (Vec3 × Vec3)) (w : Walk),
        w ∈ cpuAcceptedWalks order segs →
        3 ≤ w.keys.length ∧ w.endKey = w.startKey ∧ w.keys.head? = some w.startKey) ∧
    (∀ (order : List Key) (segs : List (Vec3 × Vec3)) (p : List Vec3),
        p ∈ assemblePolygonsOrdered order segs → 3 ≤ p.length) ∧
    (∀ (order : List Key) (segs : List ((ℚ × ℚ) × (ℚ × ℚ))) (p : List Vec3),
        p ∈ gpuAssemblePolygonsOrdered order segs → 2 ≤ p.length) := by
  have hcpu : ∀ (order : List Key) (segs : List (Vec3 × Vec3)) (w : Walk),
      w ∈ cpuAcceptedWalks order segs →
      3 ≤ w.keys.length ∧ w.endKey = w.startKey ∧ w.keys.head? = some w.startKey := by
    intro order segs w hw
    have h2 := List.mem_filter.mp hw
    have hlen : 3 ≤ w.keys.length ∧ w.endKey = w.startKey := by
      have := h2.2
      simp only [Bool.and_eq_true, decide_eq_true_eq] at this
      exact this
    exact ⟨hlen.1, hlen.2, walksOfSegs_head pointToKey order segs w h2.1⟩
  refine ⟨hcpu, ?_, ?_⟩
  · intro order segs p hp
    obtain ⟨w, hw, hmap⟩ := List.mem_map.mp hp
    have := (hcpu order segs w hw).1
    rw [← hmap, List.length_map]
    exact this
  · intro order segs p hp
    obtain ⟨w, hw, hmap⟩ := List.mem_map.mp hp
    have h2 := List.mem_filter.mp hw
    have hlen : 3 ≤ w.keys.length := by
      have := h2.2
      simpa using this
    rw [← hmap, List.length_map]
    split
    · rw [List.length_dropLast]
      omega
    · omega

/-- Witness for the amended C6 at a concrete input: the canonical run on
a 3-segment triangle loop accepts exactly one walk and it satisfies the
closed-loop invariant. -/
theorem c6_closed_loop_invariant_witness :
    3 ≤ wTriLoop.keys.length ∧ wTriLoop.endKey = wTriLoop.startKey ∧
      wTriLoop.keys.head? = some wTriLoop.startKey := by
  have hmap : (cpuAcceptedWalks (insertionKeys pointToKey triLoopSegs) triLoopSegs).map
      (fun w => (w.startKey, w.keys, w.endKey)) =
      [((0, 0), [(0, 0), (1000000, 0), (0, 1000000)], (0, 0))] := by
    with_unfolding_all decide
  have hmem : wTriLoop ∈ cpuAcceptedWalks (insertionKeys pointToKey triLoopSegs) triLoopSegs := by
    rcases hl : cpuAcceptedWalks (insertionKeys pointToKey triLoopSegs) triLoopSegs
      with _ | ⟨w, rest⟩
    · rw [hl] at hmap; exact absurd hmap (by simp)
    · rw [hl] at hmap
      simp only [List.map_cons, List.cons.injEq] at hmap
      have hw : w = wTriLoop := by
        have h1 := hmap.1
        cases w with
        | mk s k e =>
          simp only [Prod.mk.injEq] at h1
          simp [wTriLoop, h1.1, h1.2.1, h1.2.2]
      rw [hw]
      exact List.mem_cons_self _ _
  exact c6_closed_loop_invariant.1 (insertionKeys pointToKey triLoopSegs) triLoopSegs
    wTriLoop hmem

/-- **C6 counterexample.**  On the open chain `chainSegs` the GPU
assembler emits a polygon: its single finished walk has 3 keys but ended
at `(0, 2000000) ≠ (0, 0)` — it never returned to its start key — yet it
is accepted and an output polygon is produced.  This refutes "open
chains are discarded and produce no output polygon ... for both the
CPU-slicer assembler and the GPU-slicer assembler". -/
theorem c6_counterexample :
    gpuAssemblePolygons chainSegs = [[⟨0, 0, 0⟩, ⟨1, 0, 0⟩, ⟨0, 2, 0⟩]] ∧
    (gpuAcceptedWalks (insertionKeys pointToKey2 chainSegs) chainSegs).map
        (fun w => (w.startKey, w.keys, w.endKey)) =
      [((0, 0), [(0, 0), (1000000, 0), (0, 2000000)], (0, 2000000))] ∧
    ((0, 2000000) : Key) ≠ ((0, 0) : Key) := by
  refine ⟨?_, ?_, ?_⟩ <;> with_unfolding_all decide

/-- Helper: the assembler yields nothing on an empty segment list, for
any traversal order. -/
theorem assemble_nil (order : List Key) :
    assemblePolygonsOrdered order ([] : List (Vec3 × Vec3)) = [] := by
  have hw : ∀ (ord : List Key) (vis : List (Key × Key)) (walks : List Walk),
      procStarts ([] : List (Key × List Key)) (4 * ([] : List (Vec3 × Vec3)).length + 4)
        ord vis walks = walks := by
    intro ord
    induction ord with
    | nil => intro vis walks; rfl
    | cons sk rest ih =>
      intro vis walks
      rw [procStarts]
      exact ih _ _
  simp only [assemblePolygonsOrdered, cpuAcceptedWalks, walksOfSegs, buildMaps,
    List.foldl_nil, hw]
  rfl

/-- Helper: no segments at a plane means no polygons at it. -/
theorem cpuPlanePolys_of_no_segs (ts : List Tri)
    (ordFn : List (Vec3 × Vec3) → List Key) (z : ℚ)
    (h : collectIntersectionSegments ts z = []) :
    cpuPlanePolys ts ordFn z = [] := by
  rw [cpuPlanePolys, h, assemble_nil]

/-- Helper: with a non-positive thickness the sweep loop never
terminates: starting at or below `maxZ`, no fuel suffices. -/
theorem sliceZLoop_nonpos_th (th : ℚ) (hth : th ≤ 0) :
    ∀ (fuel : Nat) (zc maxZ : ℚ), zc ≤ maxZ → sliceZLoop fuel zc maxZ th = none := by
  intro fuel
  induction fuel with
  | zero =>
    intro zc maxZ hz
    rw [sliceZLoop, if_pos hz]
  | succ n ih =>
    intro zc maxZ hz
    rw [sliceZLoop, if_pos hz]
    have : zc + th ≤ maxZ := by linarith
    rw [ih (zc + th) maxZ this]
    rfl

/-- Helper: `minFold` of a nonempty list is `some` of a value bounded by
the head. -/
theorem minFold_cons (q : ℚ) (rest : List ℚ) :
    ∃ a, minFold (q :: rest) = some a ∧ a ≤ q := by
  rw [minFold]
  cases minFold rest with
  | none => exact ⟨q, rfl, le_refl q⟩
  | some m => exact ⟨min q m, rfl, min_le_left q m⟩

/-- Helper: `maxFold` of a nonempty list is `some` of a value bounding
the head. -/
theorem maxFold_cons (q : ℚ) (rest : List ℚ) :
    ∃ b, maxFold (q :: rest) = some b ∧ q ≤ b := by
  rw [maxFold]
  cases maxFold rest with
  | none => exact ⟨q, rfl, le_refl q⟩
  | some m => exact ⟨max q m, rfl, le_max_left q m⟩

/-- **C2 (amended)**.  The CPU slicer performs no input validation.  An
empty triangle set is silently coerced to the normal result
`Ok(vec![])` (the `±INFINITY` fold makes the plane sweep empty); it is
not surfaced as an error.  A non-positive slice thickness with a
nonempty triangle set makes the plane-sweep loop run forever: no fuel
makes the call return at all, so no error is ever surfaced for it
either. -/
theorem c2_no_input_validation :
    (∀ (fuel : Nat) (s : CPUSlicerP) (ordFn : List (Vec3 × Vec3) → List Key),
        cpuGenerateSliceImages fuel s [] ordFn = some (Except.ok [])) ∧
    (∀ (fuel : Nat) (s : CPUSlicerP) (ts : List Tri)
        (ordFn : List (Vec3 × Vec3) → List Key),
        s.sliceThickness ≤ 0 → ts ≠ [] →
        cpuGenerateSliceImages fuel s ts ordFn = none) := by
  constructor
  · intro fuel s ordFn
    rfl
  · intro fuel s ts ordFn hth hts
    match hts2 : ts with
    | t :: ts2 =>
      obtain ⟨a, ha, haq⟩ := minFold_cons t.v0.z (t.v1.z :: t.v2.z :: zCoords ts2)
      obtain ⟨b, hb, hqb⟩ := maxFold_cons t.v0.z (t.v1.z :: t.v2.z :: zCoords ts2)
      have hz : zCoords (t :: ts2) = t.v0.z :: t.v1.z :: t.v2.z :: zCoords ts2 := rfl
      have hab : a ≤ b := le_trans haq hqb
      simp only [cpuGenerateSliceImages, candidatePlanes, hz, ha, hb,
        sliceZLoop_nonpos_th s.sliceThickness hth fuel a b hab]

/-- **C2 counterexample.**  At the concrete empty triangle list the CPU
slicer returns the normal result `Ok(vec![])` — an empty image list, not
an explicit error — refuting "the call returns an explicit error ... it
never silently coerces such input into a normal result such as an empty
image list". -/
theorem c2_counterexample :
    cpuGenerateSliceImages 5 ⟨10, 10, 1⟩ [] ordCanon = some (Except.ok []) := rfl

/-- Witness for the amended C2: both behaviours at concrete inputs — the
empty list yields `Ok []`, and thickness `0` on one concrete triangle
yields no result at fuel 5. -/
theorem c2_no_input_validation_witness :
    cpuGenerateSliceImages 7 ⟨10, 10, 1⟩ [] ordCanon = some (Except.ok []) ∧
    cpuGenerateSliceImages 5 ⟨10, 10, 0⟩ [triCross] ordCanon = none :=
  ⟨c2_no_input_validation.1 7 ⟨10, 10, 1⟩ ordCanon,
   c2_no_input_validation.2 5 ⟨10, 10, 0⟩ [triCross] ordCanon le_rfl
     (by simp)⟩

/-- **C1 (amended)**.  CPU slicer: whenever the plane sweep terminates,
the output is exactly one image per candidate plane whose contour
assembly yields at least one polygon — empty planes are dropped.  GPU
slicer: the output (when it is `Ok`) has exactly one image per
candidate plane, regardless of how many planes assemble zero polygons
(blank entries are emitted). -/
theorem c1_empty_planes_dropped :
    (∀ (fuel : Nat) (s : CPUSlicerP) (ts : List Tri)
        (ordFn : List (Vec3 × Vec3) → List Key) (planes : List ℚ),
        candidatePlanes fuel ts s.sliceThickness = some planes →
        cpuGenerateSliceImages fuel s ts ordFn =
          some (Except.ok ((planes.filter
            (fun z => decide (cpuPlanePolys ts ordFn z ≠ []))).map
            (cpuRenderPlane s ts ordFn)))) ∧
    (∀ (fuel : Nat) (g : GPUSlicerP) (ts : List Tri)
        (ordFn : List ((ℚ × ℚ) × (ℚ × ℚ)) → List Key) (planes : List ℚ)
        (imgs : List SliceImage),
        candidatePlanes fuel ts g.sliceThickness = some planes →
        gpuGenerateSliceImages fuel g ts ordFn = some (Except.ok imgs) →
        imgs.length = planes.length) := by
  constructor
  · intro fuel s ts ordFn planes hpl
    simp only [cpuGenerateSliceImages, hpl]
    have key : ∀ (pl : List ℚ),
        pl.filterMap (fun z =>
          if collectIntersectionSegments ts z = [] then none
          else if cpuPlanePolys ts ordFn z = [] then none
          else some (cpuRenderPlane s ts ordFn z)) =
        (pl.filter (fun z => decide (cpuPlanePolys ts ordFn z ≠ []))).map
          (cpuRenderPlane s ts ordFn) := by
      intro pl
      induction pl with
      | nil => rfl
      | cons z rest ih =>
        by_cases hs : collectIntersectionSegments ts z = []
        · have hp : cpuPlanePolys ts ordFn z = [] :=
            cpuPlanePolys_of_no_segs ts ordFn z hs
          simp [List.filterMap_cons, List.filter_cons, hs, hp, ih]
        · by_cases hp : cpuPlanePolys ts ordFn z = []
          · simp [List.filterMap_cons, List.filter_cons, hs, hp, ih]
          · simp [List.filterMap_cons, List.filter_cons, hs, hp, ih]
    rw [key]
  · intro fuel g ts ordFn planes imgs hpl himgs
    simp only [gpuGenerateSliceImages, hpl] at himgs
    by_cases hrec : (shaderRecords ts planes).length = 0
    · rw [if_pos hrec] at himgs
      exact absurd himgs (by simp)
    · rw [if_neg hrec] at himgs
      have h2 := Except.ok.inj (Option.some.inj himgs)
      rw [← h2, List.length_map, List.enum_length]

/-- **C1 counterexample.**  On `trisC1` the candidate planes are
`[-1, 0, 1]`; contour assembly yields zero polygons at planes -1 and 1
and one polygon at plane 0 — yet the GPU slicer returns **3** images,
one per candidate plane, including entries for the two empty planes.
This refutes "the output contains one image per plane with at least one
assembled polygon, and no blank images for empty planes ... for both
the host (CPU) slicer and the offload (GPU) slicer". -/
theorem c1_counterexample :
    okImageCount (gpuGenerateSliceImages 6 ⟨16, 16, 1⟩ trisC1 gpuOrdCanon) = some 3 ∧
    candidatePlanes 6 trisC1 (1 : ℚ) = some [-1, 0, 1] ∧
    gpuPlanePolys trisC1 [-1, 0, 1] gpuOrdCanon 0 = [] ∧
    gpuPlanePolys trisC1 [-1, 0, 1] gpuOrdCanon 2 = [] ∧
    gpuPlanePolys trisC1 [-1, 0, 1] gpuOrdCanon 1 ≠ [] := by
  refine ⟨?_, ?_, ?_, ?_, ?_⟩ <;> with_unfolding_all decide

/-- Witness for the amended C1 at a concrete input: the CPU slicer on
`trisC1` keeps exactly the filtered plane list. -/
theorem c1_empty_planes_dropped_witness :
    cpuGenerateSliceImages 6 ⟨16, 16, 1⟩ trisC1 ordCanon =
      some (Except.ok ((([-1, 0, 1] : List ℚ).filter
        (fun z => decide (cpuPlanePolys trisC1 ordCanon z ≠ []))).map
        (cpuRenderPlane ⟨16, 16, 1⟩ trisC1 ordCanon))) :=
  c1_empty_planes_dropped.1 6 ⟨16, 16, 1⟩ trisC1 ordCanon [-1, 0, 1]
    (by with_unfolding_all decide)

/-- **C9 (amended)**.  The slicing pipeline is a pure function of the
triangle list, the slicer parameters and the adjacency-key traversal
order: two invocations whose traversal orders assemble the same
polygons at every segment set produce identical image sequences.
Identity of the sequences across arbitrary invocations (with the
randomized `HashMap` orders) is **not** guaranteed — see the
counterexample, where even the output lengths differ. -/
theorem c9_deterministic_given_order (fuel : Nat) (s : CPUSlicerP) (ts : List Tri)
    (f g : List (Vec3 × Vec3) → List Key)
    (h : ∀ segs, assemblePolygonsOrdered (f segs) segs =
      assemblePolygonsOrdered (g segs) segs) :
    cpuGenerateSliceImages fuel s ts f = cpuGenerateSliceImages fuel s ts g := by
  have hp : ∀ z, cpuPlanePolys ts f z = cpuPlanePolys ts g z := by
    intro z
    rw [cpuPlanePolys, cpuPlanePolys, h]
  have hr : ∀ z, cpuRenderPlane s ts f z = cpuRenderPlane s ts g z := by
    intro z
    rw [cpuRenderPlane, cpuRenderPlane, hp z]
  rw [cpuGenerateSliceImages, cpuGenerateSliceImages]
  cases candidatePlanes fuel ts s.sliceThickness with
  | none => rfl
  | some planes =>
    have : (fun z => if collectIntersectionSegments ts z = [] then none
          else if cpuPlanePolys ts f z = [] then none
          else some (cpuRenderPlane s ts f z)) =
        (fun z => if collectIntersectionSegments ts z = [] then none
          else if cpuPlanePolys ts g z = [] then none
          else some (cpuRenderPlane s ts g z)) := by
      funext z
      rw [hp z, hr z]
    rw [this]

/-- Witness for the amended C9: two syntactically different but
pointwise-equal traversal orders at a concrete input. -/
theorem c9_deterministic_given_order_witness :
    cpuGenerateSliceImages 6 ⟨16, 16, 1⟩ trisC9 ordCanon =
      cpuGenerateSliceImages 6 ⟨16, 16, 1⟩ trisC9 (fun segs => ordCanon segs ++ []) :=
  c9_deterministic_given_order 6 ⟨16, 16, 1⟩ trisC9 ordCanon
    (fun segs => ordCanon segs ++ []) (fun segs => by simp)

/-- **C9 counterexample.**  On `trisC9` (closed loop + pendant segment)
the canonical traversal finds the loop and outputs 1 image, while the
reversed traversal — a permutation of the same adjacency keys, as a
randomized `HashMap` iteration may produce — starts at the pendant,
consumes the loop edges in an open walk that is then discarded, and
outputs **0** images.  Two invocations with identical triangles and
parameters can thus return sequences of different lengths, refuting the
idempotence claim. -/
theorem c9_counterexample :
    okImageCount (cpuGenerateSliceImages 6 ⟨16, 16, 1⟩ trisC9 ordCanon) = some 1 ∧
    okImageCount (cpuGenerateSliceImages 6 ⟨16, 16, 1⟩ trisC9 ordRev) = some 0 ∧
    ∀ segs, (ordRev segs).Perm (ordCanon segs) := by
  refine ⟨?_, ?_, fun segs => (insertionKeys pointToKey segs).reverse_perm⟩ <;>
    with_unfolding_all decide

/-- Helper: the keep-fold of `remove_degenerate_triangles` equals the
filtered flattening. -/
theorem keepFold_eq (m : Mesh) :
    ∀ (trs : List (Nat × Nat × Nat)) (acc : List Nat),
      trs.foldl (fun acc tr =>
        if tripleKeep m tr then acc ++ [tr.1, tr.2.1, tr.2.2] else acc) acc =
      acc ++ (trs.filter (tripleKeep m)).foldr
        (fun tr acc2 => tr.1 :: tr.2.1 :: tr.2.2 :: acc2) [] := by
  intro trs
  induction trs with
  | nil => intro acc; simp
  | cons tr rest ih =>
    intro acc
    by_cases hk : tripleKeep m tr = true
    · rw [List.foldl_cons, if_pos hk, ih, List.filter_cons, if_pos hk,
        List.foldr_cons, List.append_assoc]
      rfl
    · rw [List.foldl_cons, if_neg hk, ih, List.filter_cons, if_neg hk]

/-- Helper: a flattened triple list has length `3 *` the triple count. -/
theorem flattened_length (trs : List (Nat × Nat × Nat)) :
    (trs.foldr (fun tr acc => tr.1 :: tr.2.1 :: tr.2.2 :: acc) []).length =
      3 * trs.length := by
  induction trs with
  | nil => rfl
  | cons tr rest ih =>
    rw [List.foldr_cons]
    simp only [List.length_cons, ih]
    ring

/-- **C10** (frame of `remove_degenerate_triangles`).  The vertex list is
left entirely unchanged; the output index list is exactly the flattened
subsequence of triplets whose edge cross-product magnitude exceeds
`1e-6`, in original order; the output length is a multiple of 3. -/
theorem c10_remove_degenerate_frame (m : Mesh)
    (h3 : m.indices.length % 3 = 0)
    (hb : ∀ i ∈ m.indices, i < m.vertices.length) :
    (removeDegenerateTriangles m).vertices = m.vertices ∧
    (removeDegenerateTriangles m).indices = specRetainedIndices m ∧
    (removeDegenerateTriangles m).indices.length % 3 = 0 := by
  refine ⟨rfl, ?_, ?_⟩
  · simp only [removeDegenerateTriangles, specRetainedIndices]
    rw [keepFold_eq m (chunks3 m.indices) [], List.nil_append]
  · simp only [removeDegenerateTriangles]
    rw [keepFold_eq m (chunks3 m.indices) [], List.nil_append, flattened_length]
    omega

/-- Witness for C10 at a concrete input: the degenerate triplet is
dropped, the proper one kept, the vertices untouched. -/
theorem c10_remove_degenerate_frame_witness :
    meshC10.indices.length % 3 = 0 ∧
    ((removeDegenerateTriangles meshC10).vertices = meshC10.vertices ∧
      (removeDegenerateTriangles meshC10).indices = specRetainedIndices meshC10 ∧
      (removeDegenerateTriangles meshC10).indices.length % 3 = 0) :=
  ⟨by with_unfolding_all decide,
   c10_remove_degenerate_frame meshC10 (by with_unfolding_all decide)
     (by with_unfolding_all decide)⟩

/-- **C3 (amended)**.  `compute_vertex_normals` implements exactly the
claimed zero / accumulate / normalize algorithm, but with the
**zero-vector** default for a below-tolerance cross product (and for a
below-tolerance final sum), not the +Z default the claim states.  The
equality holds for every mesh and every interpretation `s` of the float
square root. -/
theorem c3_normal_synthesis_algorithm (s : ℚ → ℚ) (m : Mesh) :
    computeVertexNormals s m = specNormalSynthesisZero s m := by
  have hface : ∀ p0 p1 p2 : Vec3, faceNormal s p0 p1 p2 = specFaceNormalZero s p0 p1 p2 := by
    intro p0 p1 p2
    by_cases h : normSq (crossV (subV p1 p0) (subV p2 p0)) ≤ eps2
    · rw [specFaceNormalZero, if_pos h, faceNormal, mNormalize,
        if_neg (not_lt.mpr h)]
    · rw [specFaceNormalZero, if_neg h, faceNormal]
  have haccum : accumTriple s = specAccumTriple (specFaceNormalZero s) := by
    funext vs tr
    rw [accumTriple, specAccumTriple, hface]
    rfl
  rw [computeVertexNormals, specNormalSynthesisZero, haccum]

/-- **C3 counterexample.**  On the degenerate triangle the cross product
is zero, so `compute_vertex_normals` accumulates the **zero** face
normal and leaves the vertex normal `(0,0,0)`; the claimed algorithm
(+Z default) would accumulate `(0,0,1)` three times and produce the
normal `(0,0,1)`.  The square-root stand-in is exact at the only point
consulted (`s 9 = 3`, and `3² = 9`). -/
theorem c3_counterexample :
    sqrtCex 9 * sqrtCex 9 = 9 ∧ (0 : ℚ) ≤ sqrtCex 9 ∧
    (computeVertexNormals sqrtCex meshC3).vertices.map (fun v => v.normal) =
      [⟨0, 0, 0⟩] ∧
    (specNormalSynthesisPlusZ sqrtCex meshC3).vertices.map (fun v => v.normal) =
      [⟨0, 0, 1⟩] ∧
    computeVertexNormals sqrtCex meshC3 ≠ specNormalSynthesisPlusZ sqrtCex meshC3 := by
  have h3 : (computeVertexNormals sqrtCex meshC3).vertices.map (fun v => v.normal) =
      [⟨0, 0, 0⟩] := by with_unfolding_all decide
  have h4 : (specNormalSynthesisPlusZ sqrtCex meshC3).vertices.map (fun v => v.normal) =
      [⟨0, 0, 1⟩] := by with_unfolding_all decide
  refine ⟨by with_unfolding_all decide, by with_unfolding_all decide, h3, h4, ?_⟩
  intro heq
  rw [heq, h4] at h3
  exact absurd h3 (by decide)

/-- **C5** (platform vertices are never islands).  A vertex of the mesh
whose z-coordinate is within `EPSILON` of the build-platform height 0
is never in the island list, regardless of its adjacency. -/
theorem c5_platform_vertex_never_island (m : Mesh) (v : Nat)
    (hv : v < m.vertices.length)
    (hz : |(getV m v).position.z - 0| < eps) :
    v ∉ analyzeIslands m := by
  have key : ∀ (es : List (Nat × List Nat)) (acc : List Nat), v ∉ acc →
      v ∉ es.foldl (fun acc e =>
        if |(getV m e.1).position.z - 0| < eps then acc
        else if isIslandCheck m e.1 e.2 then acc ++ [e.1] else acc) acc := by
    intro es
    induction es with
    | nil => intro acc h; exact h
    | cons e rest ih =>
      intro acc hacc
      rw [List.foldl_cons]
      by_cases h1 : |(getV m e.1).position.z - 0| < eps
      · rw [if_pos h1]
        exact ih acc hacc
      · rw [if_neg h1]
        by_cases h2 : isIslandCheck m e.1 e.2 = true
        · rw [if_pos h2]
          have hne : v ≠ e.1 := by
            intro hEq
            rw [← hEq] at h1
            exact h1 hz
          refine ih (acc ++ [e.1]) ?_
          rw [List.mem_append]
          rintro (h | h)
          · exact hacc h
          · exact hne (List.mem_singleton.mp h)
        · rw [if_neg h2]
          exact ih acc hacc
  exact key (vertexEdges m) [] (List.not_mem_nil v)

/-- Witness for C5 at a concrete input: vertex 0 of the platform square
is not an island. -/
theorem c5_platform_vertex_never_island_witness :
    0 < meshSquare0.vertices.length ∧
    |(getV meshSquare0 0).position.z - 0| < eps ∧
    0 ∉ analyzeIslands meshSquare0 :=
  ⟨by with_unfolding_all decide, by with_unfolding_all decide,
   c5_platform_vertex_never_island meshSquare0 0 (by with_unfolding_all decide)
     (by with_unfolding_all decide)⟩

/-- Helper: `isIslandCheck` succeeds exactly when every neighbor is
uninformative (zero-length direction) or fails to place the vertex
strictly above it. -/
theorem isIslandCheck_iff (m : Mesh) (vi : Nat) :
    ∀ es : List Nat, isIslandCheck m vi es = true ↔
      ∀ n ∈ es, normSq (subV (getV m vi).position (getV m n).position) = 0 ∨
        (getV m vi).position.z - (getV m n).position.z ≤ 0 := by
  intro es
  induction es with
  | nil => simp [isIslandCheck]
  | cons n rest ih =>
    rw [isIslandCheck]
    by_cases h1 : normSq (subV (getV m vi).position (getV m n).position) = 0
    · rw [if_pos h1, ih]
      constructor
      · intro h n2 hn2
        rcases List.mem_cons.mp hn2 with rfl | hn2
        · exact Or.inl h1
        · exact h n2 hn2
      · intro h n2 hn2
        exact h n2 (List.mem_cons_of_mem n hn2)
    · rw [if_neg h1]
      by_cases h2 : 0 < (getV m vi).position.z - (getV m n).position.z
      · rw [if_pos h2]
        constructor
        · intro h; exact absurd h (by simp)
        · intro h
          rcases h n (List.mem_cons_self n rest) with h | h
          · exact absurd h h1
          · exact absurd h2 (not_lt.mpr h)
      · rw [if_neg h2, ih]
        constructor
        · intro h n2 hn2
          rcases List.mem_cons.mp hn2 with rfl | hn2
          · exact Or.inr (not_lt.mp h2)
          · exact h n2 hn2
        · intro h n2 hn2
          exact h n2 (List.mem_cons_of_mem n hn2)

/-- Helper: association lookup over an appended tail. -/
theorem nmLookup_append (l l2 : List (Nat × List Nat)) (k : Nat) :
    nmLookup (l ++ l2) k =
      match nmLookup l k with
      | some v => some v
      | none => nmLookup l2 k := by
  induction l with
  | nil => rfl
  | cons e rest ih =>
    rw [List.cons_append, nmLookup]
    by_cases h : k = e.1
    · rw [if_pos h]
      rw [show nmLookup (e :: rest) k = some e.2 from by rw [nmLookup, if_pos h]]
    · rw [if_neg h]
      rw [show nmLookup (e :: rest) k = nmLookup rest k from by rw [nmLookup, if_neg h]]
      exact ih

/-- Helper: `veEnsure` preserves present keys. -/
theorem veEnsure_isSome (acc : List (Nat × List Nat)) (i k : Nat)
    (h : (nmLookup acc k).isSome) : (nmLookup (veEnsure acc i) k).isSome := by
  rw [veEnsure]
  cases hl : nmLookup acc i with
  | some v => exact h
  | none =>
    rw [nmLookup_append]
    cases hk : nmLookup acc k with
    | some v => simp
    | none => rw [hk] at h; exact absurd h (by simp)

/-- Helper: after `veEnsure acc i`, key `i` is present. -/
theorem veEnsure_self (acc : List (Nat × List Nat)) (i : Nat) :
    (nmLookup (veEnsure acc i) i).isSome := by
  rw [veEnsure]
  cases hl : nmLookup acc i with
  | some v => rw [hl]; rfl
  | none =>
    rw [nmLookup_append, hl, nmLookup]
    rw [if_pos rfl]
    rfl

/-- Helper: the ensure loop makes every listed key present. -/
theorem ensureFold_isSome :
    ∀ (is : List Nat) (acc : List (Nat × List Nat)) (k : Nat),
      k ∈ is ∨ (nmLookup acc k).isSome →
      (nmLookup (is.foldl veEnsure acc) k).isSome := by
  intro is
  induction is with
  | nil =>
    intro acc k h
    rcases h with h | h
    · exact absurd h (List.not_mem_nil k)
    · exact h
  | cons i rest ih =>
    intro acc k h
    rw [List.foldl_cons]
    rcases h with h | h
    · rcases List.mem_cons.mp h with rfl | h
      · exact ih _ k (Or.inr (veEnsure_self acc k))
      · exact ih _ k (Or.inl h)
    · exact ih _ k (Or.inr (veEnsure_isSome acc i k h))

/-- Helper: a successful association lookup produces a member entry. -/
theorem nmLookup_mem : ∀ (l : List (Nat × List Nat)) (k : Nat) (vs : List Nat),
    nmLookup l k = some vs → (k, vs) ∈ l := by
  intro l
  induction l with
  | nil => intro k vs h; exact absurd h (by rw [nmLookup]; simp)
  | cons e rest ih =>
    intro k vs h
    rw [nmLookup] at h
    by_cases hk : k = e.1
    · rw [if_pos hk] at h
      have : e = (k, vs) := by
        cases e
        simp only [Option.some.injEq] at h
        simp [hk, ← h]
      rw [← this]
      exact List.mem_cons_self e rest
    · rw [if_neg hk] at h
      exact List.mem_cons_of_mem e (ih k vs h)

/-- **C4 (amended)**.  A vertex is in the island list iff its
`vertex_edges` entry survives both tests: it is not within `EPSILON` of
the platform, and **no informative neighbor lies strictly below it** —
the code disqualifies exactly when the direction from some neighbor to
the vertex has *strictly negative* dot product with the code's up
vector `(0, 0, -1)`, i.e. when the vertex is strictly above that
neighbor.  A horizontal edge (dot product zero) does **not** disqualify,
and a vertex with no informative neighbors (no entry neighbors, or all
directions zero-length) not at platform height is always an island. -/
theorem c4_island_characterization :
    (∀ (m : Mesh) (v : Nat),
        v ∈ analyzeIslands m ↔
          ∃ es, (v, es) ∈ vertexEdges m ∧ ¬ |(getV m v).position.z - 0| < eps ∧
            ∀ n ∈ es, normSq (subV (getV m v).position (getV m n).position) = 0 ∨
              (getV m v).position.z - (getV m n).position.z ≤ 0) ∧
    (∀ (m : Mesh) (v : Nat), v < m.vertices.length →
        ¬ |(getV m v).position.z - 0| < eps →
        (∀ n ∈ (nmLookup (vertexEdges m) v).getD [],
          normSq (subV (getV m v).position (getV m n).position) = 0) →
        v ∈ analyzeIslands m) := by
  have hfold : ∀ (m : Mesh) (es : List (Nat × List Nat)) (acc : List Nat) (v : Nat),
      v ∈ es.foldl (fun acc e =>
        if |(getV m e.1).position.z - 0| < eps then acc
        else if isIslandCheck m e.1 e.2 then acc ++ [e.1] else acc) acc ↔
      v ∈ acc ∨ ∃ es2, (v, es2) ∈ es ∧ ¬ |(getV m v).position.z - 0| < eps ∧
        isIslandCheck m v es2 = true := by
    intro m es
    induction es with
    | nil =>
      intro acc v
      simp
    | cons e rest ih =>
      intro acc v
      rw [List.foldl_cons]
      by_cases h1 : |(getV m e.1).position.z - 0| < eps
      · rw [if_pos h1, ih]
        constructor
        · rintro (h | ⟨es2, hmem, hz, hchk⟩)
          · exact Or.inl h
          · exact Or.inr ⟨es2, List.mem_cons_of_mem e hmem, hz, hchk⟩
        · rintro (h | ⟨es2, hmem, hz, hchk⟩)
          · exact Or.inl h
          · rcases List.mem_cons.mp hmem with hEq | hmem
            · exfalso
              have : e.1 = v := by rw [← hEq]
              rw [this] at h1
              exact hz h1
            · exact Or.inr ⟨es2, hmem, hz, hchk⟩
      · rw [if_neg h1]
        by_cases h2 : isIslandCheck m e.1 e.2 = true
        · rw [if_pos h2, ih]
          constructor
          · rintro (h | ⟨es2, hmem, hz, hchk⟩)
            · rcases List.mem_append.mp h with h | h
              · exact Or.inl h
              · have hve : v = e.1 := List.mem_singleton.mp h
                refine Or.inr ⟨e.2, ?_, ?_, ?_⟩
                · rw [hve]
                  exact List.mem_cons_self e rest
                · rw [hve]; exact h1
                · rw [hve]; exact h2
            · exact Or.inr ⟨es2, List.mem_cons_of_mem e hmem, hz, hchk⟩
          · rintro (h | ⟨es2, hmem, hz, hchk⟩)
            · exact Or.inl (List.mem_append.mpr (Or.inl h))
            · rcases List.mem_cons.mp hmem with hEq | hmem
              · have hv : e.1 = v := by rw [← hEq]
                exact Or.inl (List.mem_append.mpr (Or.inr (by simp [hv])))
              · exact Or.inr ⟨es2, hmem, hz, hchk⟩
        · rw [if_neg h2, ih]
          constructor
          · rintro (h | ⟨es2, hmem, hz, hchk⟩)
            · exact Or.inl h
            · exact Or.inr ⟨es2, List.mem_cons_of_mem e hmem, hz, hchk⟩
          · rintro (h | ⟨es2, hmem, hz, hchk⟩)
            · exact Or.inl h
            · rcases List.mem_cons.mp hmem with hEq | hmem
              · exfalso
                have h1e : e.1 = v := by rw [← hEq]
                have h2e : e.2 = es2 := by rw [← hEq]
                rw [h1e, h2e] at h2
                exact h2 hchk
              · exact Or.inr ⟨es2, hmem, hz, hchk⟩
  have hmain : ∀ (m : Mesh) (v : Nat),
      v ∈ analyzeIslands m ↔
        ∃ es, (v, es) ∈ vertexEdges m ∧ ¬ |(getV m v).position.z - 0| < eps ∧
          ∀ n ∈ es, normSq (subV (getV m v).position (getV m n).position) = 0 ∨
            (getV m v).position.z - (getV m n).position.z ≤ 0 := by
    intro m v
    rw [analyzeIslands, hfold]
    simp only [List.not_mem_nil, false_or]
    constructor
    · rintro ⟨es2, hmem, hz, hchk⟩
      exact ⟨es2, hmem, hz, (isIslandCheck_iff m v es2).mp hchk⟩
    · rintro ⟨es2, hmem, hz, hchk⟩
      exact ⟨es2, hmem, hz, (isIslandCheck_iff m v es2).mpr hchk⟩
  refine ⟨hmain, ?_⟩
  intro m v hv hz hzero
  have hsome : (nmLookup (vertexEdges m) v).isSome := by
    rw [vertexEdges]
    exact ensureFold_isSome (List.range m.vertices.length) _ v
      (Or.inl (List.mem_range.mpr hv))
  cases hvs : nmLookup (vertexEdges m) v with
  | none => rw [hvs] at hsome; exact absurd hsome (by simp)
  | some es =>
    rw [hvs] at hzero
    refine (hmain m v).mpr ⟨es, nmLookup_mem (vertexEdges m) v es hvs, hz, ?_⟩
    intro n hn
    exact Or.inl (hzero n hn)

/-- **C4 counterexample.**  Vertex 0 of `meshHoriz` is not at platform
height and has the informative neighbor 1 whose direction satisfies the
claim's disqualification condition (normalized dot with the up unit
vector ≤ 0, i.e. the edge does not rise strictly upward:
`z₀ − z₁ = 0 ≤ 0` with a nonzero direction) — so per the claim vertex 0
must not be reported as an island.  The analyzer reports it (and its
two triangle mates) anyway. -/
theorem c4_counterexample :
    analyzeIslands meshHoriz = [0, 1, 2] ∧
    (nmLookup (vertexEdges meshHoriz) 0).getD [] = [1, 2] ∧
    ¬ |(getV meshHoriz 0).position.z - 0| < eps ∧
    normSq (subV (getV meshHoriz 0).position (getV meshHoriz 1).position) ≠ 0 ∧
    (getV meshHoriz 0).position.z - (getV meshHoriz 1).position.z ≤ 0 := by
  refine ⟨?_, ?_, ?_, ?_, ?_⟩ <;> with_unfolding_all decide

/-- Witness for the amended C4: the isolated off-platform vertex is an
island by the no-informative-neighbors clause. -/
theorem c4_island_characterization_witness :
    0 ∈ analyzeIslands meshIso :=
  c4_island_characterization.2 meshIso 0 (by with_unfolding_all decide)
    (by with_unfolding_all decide) (by with_unfolding_all decide)

end SealSlicer
